import Mathlib

set_option maxRecDepth 8192

/-!
# Verification of the wifibroadcast core against its specification

This file gives a shallow embedding, in Lean 4, of the parts of the
wifibroadcast repository that the specification talks about:

* the AEAD envelope of `src/Encryption.hpp` (`Encryptor::makeEncryptedPacketIncludingHeader`
  and `Decryptor::decryptPacket`), including an executable model of libsodium's
  `crypto_aead_chacha20poly1305_encrypt` / `_decrypt` (the *original* 8-byte-nonce
  variant that the code calls), built from ChaCha20 and Poly1305;
* the session-key handling of `Decryptor` (`onNewPacketWfbKey`, the zero-initialised
  session key of the constructor);
* the transmitter state machine of `src/WBTransmitter.cpp` (`feedPacket`, the
  construction-time session-key burst, the periodic announcement schedule);
* the `RadioPort` byte encoding of `src/WBTxRx.h`;
* the GF(256) region multiply-add `maddrc256_shuffle_ssse3` of
  `src/ExternalCSources/fec/libmoepgf/gf256_ssse3.h`;
* `SocketHelper::UDPMultiForwarder::removeForwarder` of
  `src/HelperSources/SocketHelper.hpp`.

Machine integers are modelled as `Nat` with explicit reductions `% 2^w` where the
code relies on wrap-around; byte buffers are `List Nat` whose elements are bytes
(`< 256`) wherever the code guarantees it.  Fallible operations return `Option`
or a dedicated result type.
-/

/-! ## Byte and word helpers (little-endian, as on the target platform) -/

/-- Addition of two 32-bit words, wrapping modulo `2^32`. -/
def add32 (x y : Nat) : Nat := (x + y) % 4294967296

/-- Rotate a 32-bit word left by `n` bits (`0 < n < 32`). -/
def rotl32 (x n : Nat) : Nat := ((x <<< n) ||| (x >>> (32 - n))) % 4294967296

/-- A 32-bit word from four little-endian bytes. -/
def leWord (b0 b1 b2 b3 : Nat) : Nat :=
  b0 % 256 + 256 * (b1 % 256) + 65536 * (b2 % 256) + 16777216 * (b3 % 256)

/-- Group a little-endian byte string into 32-bit words, four bytes per word
(any trailing partial group is dropped; all uses are on multiples of 4). -/
def bytesToWordsLE : List Nat → List Nat
  | b0 :: b1 :: b2 :: b3 :: rest => leWord b0 b1 b2 b3 :: bytesToWordsLE rest
  | _ => []

/-- The `w`-byte little-endian encoding of `n % 2^(8*w)`. -/
def natToLeBytes : Nat → Nat → List Nat
  | _, 0 => []
  | n, w + 1 => n % 256 :: natToLeBytes (n / 256) w

/-- Serialize a list of 32-bit words to little-endian bytes, 4 bytes per word. -/
def wordsToBytesLE (ws : List Nat) : List Nat :=
  List.flatten (ws.map (fun w => natToLeBytes w 4))

/-! ## ChaCha20 (RFC 8439 core; both the original 64-bit-nonce block layout used
by libsodium's `crypto_aead_chacha20poly1305` and the IETF 96-bit-nonce layout) -/

/-- ChaCha20 quarter round acting on the 16-word state at indices
`ia`, `ib`, `ic`, `i4`. -/
def qround (s : List Nat) (ia ib ic i4 : Nat) : List Nat :=
  let a0 := add32 (s.getD ia 0) (s.getD ib 0)
  let d0 := rotl32 ((s.getD i4 0) ^^^ a0) 16
  let c0 := add32 (s.getD ic 0) d0
  let b0 := rotl32 ((s.getD ib 0) ^^^ c0) 12
  let a1 := add32 a0 b0
  let d1 := rotl32 (d0 ^^^ a1) 8
  let c1 := add32 c0 d1
  let b1 := rotl32 (b0 ^^^ c1) 7
  (((s.set ia a1).set ib b1).set ic c1).set i4 d1

/-- One ChaCha20 double round: the four column rounds followed by the four
diagonal rounds. -/
def doubleRound (s : List Nat) : List Nat :=
  qround (qround (qround (qround (qround (qround (qround (qround
    s 0 4 8 12) 1 5 9 13) 2 6 10 14) 3 7 11 15)
      0 5 10 15) 1 6 11 12) 2 7 8 13) 3 4 9 14

/-- Iterate the double round `n` times (ChaCha20 uses `n = 10`). -/
def iterDoubleRound : Nat → List Nat → List Nat
  | 0, s => s
  | n + 1, s => iterDoubleRound n (doubleRound s)

/-- The four ChaCha20 constant words "expand 32-byte k". -/
def chachaConsts : List Nat := [1634760805, 857760878, 2036477234, 1797285236]

/-- Initial ChaCha20 state of the *original* (libsodium
`crypto_aead_chacha20poly1305`) variant: constants, 8 key words, a 64-bit
block counter in two words, and the 8-byte nonce in the last two words. -/
def chacha20_init (key : List Nat) (counter : Nat) (nonce8 : List Nat) : List Nat :=
  chachaConsts ++ bytesToWordsLE key ++
    [counter % 4294967296, counter / 4294967296 % 4294967296] ++ bytesToWordsLE nonce8

/-- Initial ChaCha20 state of the IETF (RFC 8439) variant: constants, 8 key
words, a 32-bit block counter in one word, and the 12-byte nonce in the last
three words. -/
def chacha20_init_ietf (key : List Nat) (counter : Nat) (nonce12 : List Nat) : List Nat :=
  chachaConsts ++ bytesToWordsLE key ++ [counter % 4294967296] ++ bytesToWordsLE nonce12

/-- The ChaCha20 core permutation plus feed-forward addition. -/
def chacha20_core (s : List Nat) : List Nat :=
  List.zipWith add32 (iterDoubleRound 10 s) s

/-- One 64-byte keystream block of the original variant. -/
def chacha20_block (key : List Nat) (counter : Nat) (nonce8 : List Nat) : List Nat :=
  wordsToBytesLE (chacha20_core (chacha20_init key counter nonce8))

/-- One 64-byte keystream block of the IETF variant. -/
def chacha20_block_ietf (key : List Nat) (counter : Nat) (nonce12 : List Nat) : List Nat :=
  wordsToBytesLE (chacha20_core (chacha20_init_ietf key counter nonce12))

/-- `len` bytes of keystream made of consecutive blocks starting at counter
`ctr0`, where `blk` maps a counter value to one 64-byte block. -/
def keystreamWith (blk : Nat → List Nat) (ctr0 len : Nat) : List Nat :=
  List.take len (List.flatten ((List.range ((len + 63) / 64)).map (fun i => blk (ctr0 + i))))

/-- ChaCha20 keystream of the original variant. -/
def chacha20_keystream (key nonce8 : List Nat) (ctr0 len : Nat) : List Nat :=
  keystreamWith (fun c => chacha20_block key c nonce8) ctr0 len

/-- ChaCha20 keystream of the IETF variant. -/
def chacha20_keystream_ietf (key nonce12 : List Nat) (ctr0 len : Nat) : List Nat :=
  keystreamWith (fun c => chacha20_block_ietf key c nonce12) ctr0 len

/-! ## Poly1305 (RFC 8439) -/

/-- A little-endian byte string read as a natural number. -/
def leNum : List Nat → Nat
  | [] => 0
  | b :: rest => b % 256 + 256 * leNum rest

/-- The Poly1305 prime `2^130 - 5`. -/
def poly1305_p : Nat := 1361129467683753853853498429727072845819

/-- Clamping of the `r` part of the Poly1305 key. -/
def poly1305_clamp (x : Nat) : Nat := x &&& 0x0ffffffc0ffffffc0ffffffc0fffffff

/-- Split a byte string into chunks of (at most) 16 bytes. -/
def chunk16 (l : List Nat) : List (List Nat) :=
  if h : l = [] then [] else l.take 16 :: chunk16 (l.drop 16)
termination_by l.length
decreasing_by
  have : 0 < l.length := List.length_pos.mpr h
  simp only [List.length_drop]
  omega

/-- The Poly1305 one-time authenticator: 16-byte tag of `msg` under the 32-byte
key `key` (first half clamped `r`, second half `s`). -/
def poly1305_mac (key msg : List Nat) : List Nat :=
  let r := poly1305_clamp (leNum (key.take 16))
  let s := leNum ((key.drop 16).take 16)
  let acc := (chunk16 msg).foldl
    (fun acc ch => ((acc + leNum ch + 2 ^ (8 * ch.length)) * r) % poly1305_p) 0
  natToLeBytes ((acc + s) % 340282366920938463463374607431768211456) 16

/-! ## The AEAD used by `Encryption.hpp`

`Encryption.hpp` calls libsodium's `crypto_aead_chacha20poly1305_encrypt` /
`crypto_aead_chacha20poly1305_decrypt` — the *original* (draft-agl) variant with
an 8-byte nonce (`crypto_aead_chacha20poly1305_NPUBBYTES = 8`) and a 16-byte tag
(`crypto_aead_chacha20poly1305_ABYTES = 16`).  Its Poly1305 input is
`ad ++ le64(|ad|) ++ c ++ le64(|c|)`, its one-time key the first 32 bytes of
ChaCha20 block 0, and the message keystream starts at block counter 1. -/

/-- 8-byte little-endian length encoding used in the AEAD MAC input. -/
def le64 (n : Nat) : List Nat := natToLeBytes n 8

/-- Poly1305 input of the original `crypto_aead_chacha20poly1305` construction. -/
def aeadMacData (ad c : List Nat) : List Nat := ad ++ le64 ad.length ++ c ++ le64 c.length

/-- Model of libsodium `crypto_aead_chacha20poly1305_encrypt`: returns
ciphertext followed by the 16-byte Poly1305 tag. -/
def crypto_aead_chacha20poly1305_encrypt (key nonce8 ad m : List Nat) : List Nat :=
  let polyKey := (chacha20_block key 0 nonce8).take 32
  let c := List.zipWith (· ^^^ ·) m (chacha20_keystream key nonce8 1 m.length)
  c ++ poly1305_mac polyKey (aeadMacData ad c)

/-- Model of libsodium `crypto_aead_chacha20poly1305_decrypt`: verifies the
Poly1305 tag over the ciphertext (with the associated data) and returns the
decrypted message, or `none` on authentication failure (including inputs
shorter than the 16-byte tag, which libsodium rejects as well). -/
def crypto_aead_chacha20poly1305_decrypt (key nonce8 ad c : List Nat) :
    Option (List Nat) :=
  if c.length < 16 then none
  else
    let ct := c.take (c.length - 16)
    let tag := c.drop (c.length - 16)
    let polyKey := (chacha20_block key 0 nonce8).take 32
    if poly1305_mac polyKey (aeadMacData ad ct) = tag then
      some (List.zipWith (· ^^^ ·) ct (chacha20_keystream key nonce8 1 ct.length))
    else none

/-! ## `Encryption.hpp`: packet encryption and decryption

The cleartext packet header.  Its layout is that of the over-the-wire data
packet: 1 byte radio port, 8 byte nonce (little endian, monotonically
increasing), 2 byte IEEE sequence number — 11 bytes in total.  The struct
itself lives in `wifibroadcast.hpp`; modelled from the spec: the 11-byte
header `[ RadioPort : 1 ][ Nonce : 8 ]][ IEEE seq : 2 ]` that is transmitted in
the clear and passed as AEAD associated data, with the `nonce` field used as
the 8-byte AEAD nonce. -/
structure WBDataHeader where
  radioPort : Nat
  nonce : Nat
  sequenceNumber : Nat

/-- The header as the 11 bytes that `makeEncryptedPacketIncludingHeader`
copies in front of the ciphertext and passes as associated data. -/
def WBDataHeader.asBytes (h : WBDataHeader) : List Nat :=
  [h.radioPort % 256] ++ natToLeBytes h.nonce 8 ++ natToLeBytes h.sequenceNumber 2

/-- The 8 bytes of the `nonce` field, as passed to the AEAD
(`(uint8_t *) (&(wblockHdr.nonce))`). -/
def WBDataHeader.nonceBytes (h : WBDataHeader) : List Nat := natToLeBytes h.nonce 8

/-- `Encryptor::makeEncryptedPacketIncludingHeader` (`Encryption.hpp`, lines
58–85): the returned buffer is the 11 header bytes followed by the AEAD
ciphertext-plus-tag of the payload, encrypted under the session key with the
header as associated data and the header's nonce field as AEAD nonce. -/
def makeEncryptedPacketIncludingHeader (session_key : List Nat)
    (wblockHdr : WBDataHeader) (payload : List Nat) : List Nat :=
  wblockHdr.asBytes ++
    crypto_aead_chacha20poly1305_encrypt session_key wblockHdr.nonceBytes
      wblockHdr.asBytes payload

/-- Outcome of `Decryptor::decryptPacket`.  The C++ function returns
`std::optional<std::vector<uint8_t>>`; additionally, when
`encryptedPayloadSize < crypto_aead_chacha20poly1305_ABYTES = 16` the
`size_t` subtraction in `decrypted.resize(encryptedPayloadSize - 16)`
wraps around and the resulting huge resize request makes `std::vector`
throw `std::length_error` — modelled by `throwsLengthError`. -/
inductive DecryptResult where
  | throwsLengthError
  | authFailure
  | ok (payload : List Nat)
deriving DecidableEq

/-- `Decryptor::decryptPacket` (`Encryption.hpp`, lines 172–192): resize the
output buffer to `encryptedPayloadSize - 16` (which throws for inputs shorter
than the tag), then call `crypto_aead_chacha20poly1305_decrypt` with the header
as associated data and its nonce field as AEAD nonce; `std::nullopt`
(`authFailure`) when the tag does not verify. -/
def decryptPacket (session_key : List Nat) (wblockHdr : WBDataHeader)
    (encryptedPayload : List Nat) : DecryptResult :=
  if encryptedPayload.length < 16 then DecryptResult.throwsLengthError
  else
    match crypto_aead_chacha20poly1305_decrypt session_key wblockHdr.nonceBytes
        wblockHdr.asBytes encryptedPayload with
    | none => DecryptResult.authFailure
    | some pt => DecryptResult.ok pt

/-! ## `Encryption.hpp`: the `Decryptor` session-key state -/

/-- The fields of class `Decryptor` (`Encryption.hpp`, lines 119–148). -/
structure Decryptor where
  rx_secretkey : List Nat
  tx_publickey : List Nat
  session_key : List Nat

/-- The `Decryptor` constructor (`Encryption.hpp`, lines 123–143): loads the
asymmetric keys and zeroes the installed session key
(`memset(session_key.data(), 0, 32)`). -/
def Decryptor.construct (rxsk txpk : List Nat) : Decryptor :=
  { rx_secretkey := rxsk, tx_publickey := txpk, session_key := List.replicate 32 0 }

/-- `Decryptor::onNewPacketWfbKey` (`Encryption.hpp`, lines 151–169).  The call
to libsodium `crypto_box_open_easy` is abstracted by its outcome
`openedSessionKey` (`none` = the sealed box does not open; `some k` = it
unseals to the 32-byte key `k`).  On open failure the function returns `false`
and changes nothing; otherwise the unsealed key is compared byte-wise
(`memcmp`) against the installed one and installed (returning `true`) exactly
when it differs. -/
def Decryptor.onNewPacketWfbKey (d : Decryptor)
    (openedSessionKey : Option (List Nat)) : Bool × Decryptor :=
  match openedSessionKey with
  | none => (false, d)
  | some newKey =>
    if d.session_key ≠ newKey then (true, { d with session_key := newKey })
    else (false, d)

/-! ## `WBTransmitter.cpp`: the transmitter state machine

`WBTransmitter` mixes pure state updates with wall-clock reads and calls into
the FEC encoder (`FEC.hpp`, not part of the sources).  The model below keeps
the counters and timestamps of the class; time is an explicit parameter in
milliseconds; the FEC encoder is abstracted by the list of fragment payload
sizes it emits for the fed packet and by whether its nonce overflowed. -/

/-- Modelled from the spec: `FEC_MAX_PAYLOAD_SIZE`, the maximum payload size a
fed packet may have (the constant lives in `FEC.hpp`, which is not among the
sources; the spec gives 1457). -/
def FEC_MAX_PAYLOAD_SIZE : Nat := 1457

/-- Modelled from the spec: `SESSION_KEY_ANNOUNCE_DELTA`, the session-key
announcement interval (declared in `WBTransmitter.h`, not among the sources;
the spec gives a default of 1 s), in milliseconds. -/
def SESSION_KEY_ANNOUNCE_DELTA : Nat := 1000

/-- Modelled from the spec: `WBSessionKeyPacket::SIZE_BYTES` — 24-byte nonce,
48-byte sealed key, 1 flag byte, 1 byte block-size parameter. -/
def WBSessionKeyPacket_SIZE_BYTES : Nat := 74

/-- The mutable fields of `WBTransmitter` the claims are about. -/
structure TxState where
  session_key_announce_ts : Nat
  sessionKeyVersion : Nat
  nInputPackets : Nat
  count_bytes_data_provided : Nat
  count_bytes_data_injected : Nat
  nInjectedPackets : Nat
  nInjectedSessionKeypackets : Nat
  m_curr_seq_nr : Nat
  ieee80211_seq : Nat

/-- A packet handed to the pcap injection, as observable output of the
transmitter: either the current session-key packet (tagged with which
session key generation it carries) or one encrypted FEC fragment. -/
inductive TxEvent where
  | sessionKeyPkt (version : Nat)
  | dataFragment (seqNr : Nat)
deriving DecidableEq

/-- `WBTransmitter::sendPacket` (lines 90–108): counts the injected bytes,
advances the IEEE 802.11 sequence counter by 16 (16-bit wrap) and counts the
injected packet. -/
def sendPacket (st : TxState) (payloadSize : Nat) : TxState :=
  { st with
    count_bytes_data_injected := st.count_bytes_data_injected + payloadSize,
    ieee80211_seq := (st.ieee80211_seq + 16) % 65536,
    nInjectedPackets := st.nInjectedPackets + 1 }

/-- `WBTransmitter::sendSessionKey` (lines 125–128): injects the current
session-key packet and counts it. -/
def sendSessionKey (st : TxState) : TxState × TxEvent :=
  ({ sendPacket st WBSessionKeyPacket_SIZE_BYTES with
      nInjectedSessionKeypackets := st.nInjectedSessionKeypackets + 1 },
   TxEvent.sessionKeyPkt st.sessionKeyVersion)

/-- `WBTransmitter::sendFecPrimaryOrSecondaryFragment` (lines 110–123): builds
the data header with the current sequence number, increments it, encrypts and
injects. -/
def sendFecPrimaryOrSecondaryFragment (st : TxState) (payloadSize : Nat) :
    TxState × TxEvent :=
  ({ sendPacket st payloadSize with m_curr_seq_nr := st.m_curr_seq_nr + 1 },
   TxEvent.dataFragment st.m_curr_seq_nr)

/-- The FEC encoder's output callback firing once per emitted fragment
(fragment payload sizes are the oracle `frags`). -/
def sendFragments (st : TxState) (frags : List Nat) : TxState × List TxEvent :=
  match frags with
  | [] => (st, [])
  | sz :: rest =>
    let (st1, ev) := sendFecPrimaryOrSecondaryFragment st sz
    let (st2, evs) := sendFragments st1 rest
    (st2, ev :: evs)

/-- `WBTransmitter::feedPacket` (`WBTransmitter.cpp`, lines 145–182).
Parameters beyond the state: `now` — the value of
`std::chrono::steady_clock::now()` in ms; `size` — the fed packet's size;
`frags` — the payload sizes of the fragments the FEC encoder emits for this
packet (external code, abstracted); `overflow` — the value of
`mFecEncoder->resetOnOverflow()` (external code, abstracted).
Order as in the source: size check (early return), count provided bytes,
periodic session-key announcement, encoder call, overflow rekey,
input-packet count. -/
def feedPacket (st : TxState) (now size : Nat) (frags : List Nat)
    (overflow : Bool) : TxState × List TxEvent :=
  if size = 0 ∨ FEC_MAX_PAYLOAD_SIZE < size then (st, [])
  else
    let st1 := { st with
      count_bytes_data_provided := st.count_bytes_data_provided + size }
    let (st2, evs1) :=
      if st1.session_key_announce_ts ≤ now then
        let (s2, ev) := sendSessionKey st1
        ({ s2 with session_key_announce_ts := now + SESSION_KEY_ANNOUNCE_DELTA }, [ev])
      else (st1, [])
    let (st3, evs2) := sendFragments st2 frags
    let (st4, evs3) :=
      if overflow then
        let (s4, ev) := sendSessionKey
          { st3 with sessionKeyVersion := st3.sessionKeyVersion + 1 }
        (s4, [ev])
      else (st3, [])
    ({ st4 with nInputPackets := st4.nInputPackets + 1 }, evs1 ++ evs2 ++ evs3)

/-- The all-zero initial `WBTransmitter` counter state, right after
`makeNewSessionKey` produced session key generation 1. -/
def TxState.init : TxState :=
  { session_key_announce_ts := 0, sessionKeyVersion := 1, nInputPackets := 0,
    count_bytes_data_provided := 0, count_bytes_data_injected := 0,
    nInjectedPackets := 0, nInjectedSessionKeypackets := 0,
    m_curr_seq_nr := 0, ieee80211_seq := 0 }

/-- The startup session-key burst in the `WBTransmitter` constructor:
`for (i = 0; i < 5; i++) { sendSessionKey(); sleep(10ms); }` — each iteration
sends at time `t` and sleeps 10 ms. -/
def constructBurst : Nat → TxState → Nat → TxState × List (Nat × TxEvent)
  | 0, st, _ => (st, [])
  | n + 1, st, t =>
    let (st1, ev) := sendSessionKey st
    let (st2, evs) := constructBurst n st1 (t + 10)
    (st2, (t, ev) :: evs)

/-- The tail of the `WBTransmitter` constructor (`WBTransmitter.cpp`, lines
74–81), starting at time `t0` ms: send the session key 5 times at 10 ms
spacing, then arm the periodic announcement at
`now + SESSION_KEY_ANNOUNCE_DELTA`. -/
def WBTransmitter_construct (t0 : Nat) : TxState × List (Nat × TxEvent) :=
  let (st1, evs) := constructBurst 5 TxState.init t0
  ({ st1 with session_key_announce_ts := (t0 + 50) + SESSION_KEY_ANNOUNCE_DELTA }, evs)

/-! ## `WBTxRx.h`: the `RadioPort` byte -/

/-- The bit-field struct `WBTxRx::RadioPort` (`WBTxRx.h`, lines 224–228):
`uint8_t encrypted : 1; uint8_t multiplex_index : 7;` packed into one byte. -/
structure RadioPort where
  encrypted : Nat
  multiplex_index : Nat

/-- `WBTxRx::radio_port_to_uint8_t` (`WBTxRx.h`, lines 229–233): `memcpy` of
the packed bit-field byte.  On the target ABI (GCC/Clang, little-endian, the
System V bit-field allocation rule) the *first* declared bit-field occupies the
least significant bits, so `encrypted` is bit 0 and `multiplex_index` occupies
bits 1–7. -/
def radio_port_to_uint8_t (radio_port : RadioPort) : Nat :=
  (radio_port.encrypted % 2) ||| ((radio_port.multiplex_index % 128) <<< 1)

/-! ## `gf256_ssse3.h`: GF(256) region multiply-add -/

/-- Reference doubling in GF(2^8) with the primitive polynomial
`0x11d = 285`. -/
def xtime (b : Nat) : Nat := if b < 128 then 2 * b else (2 * b) ^^^ 285

/-- Reference multiplication in GF(2^8) (Russian-peasant over the 8 bits of
the first factor), fuelled. -/
def gfmulGo : Nat → Nat → Nat → Nat
  | 0, _, _ => 0
  | n + 1, c, b => (if c % 2 = 1 then b else 0) ^^^ gfmulGo n (c / 2) (xtime b)

/-- Multiplication in GF(2^8) with the primitive polynomial `0x11d`. -/
def gfmul (c b : Nat) : Nat := gfmulGo 8 c b

/-- Modelled from the spec: entry `v` of `MOEPGF256_SHUFFLE_LOW_TABLE[c]`
(`gf256tables285.h`, not among the sources) — the product `c · v` for a low
nibble `v < 16`. -/
def tl (c v : Nat) : Nat := gfmul c (v % 16)

/-- Modelled from the spec: entry `v` of `MOEPGF256_SHUFFLE_HIGH_TABLE[c]`
(`gf256tables285.h`, not among the sources) — the product `c · (v << 4)` for a
high nibble `v < 16`. -/
def th (c v : Nat) : Nat := gfmul c (16 * (v % 16))

/-- Modelled from the spec: `xorr_sse2(region1, region2, length)` — the plain
byte-wise XOR of `region2` into `region1` (its definition is not among the
sources). -/
def xorr_sse2 (region1 region2 : List Nat) : List Nat :=
  List.zipWith (· ^^^ ·) region1 region2

/-- One 16-byte SSSE3 loop iteration of `maddrc256_shuffle_ssse3`: per byte,
look up the low-nibble and (64-bit-lane right-shifted) high-nibble product
tables with `pshufb`, XOR them and XOR into the destination.  The
`_mm_srli_epi64` by 4 does not leak bits across bytes because every byte of
`in2 & 0xf0` has a zero low nibble, so per byte the computation is
`(th[c][s >> 4] ^ tl[c][s & 0xf]) ^ d`. -/
def maddChunk (c : Nat) (dst src : List Nat) : List Nat :=
  List.zipWith (fun d s => (th c (s / 16 % 16) ^^^ tl c (s % 16)) ^^^ d) dst src

/-- The 16-bytes-at-a-time loop of `maddrc256_shuffle_ssse3`, one iteration
per chunk. -/
def maddLoop : Nat → Nat → List Nat → List Nat → List Nat
  | 0, _, dst, _ => dst
  | n + 1, c, dst, src =>
    maddChunk c (dst.take 16) (src.take 16) ++ maddLoop n c (dst.drop 16) (src.drop 16)

/-- `maddrc256_shuffle_ssse3` (`gf256_ssse3.h`, lines 18–50): `constant == 0`
returns immediately; `constant == 1` XORs the regions; otherwise the SSSE3
shuffle loop runs over `length` bytes, 16 at a time. -/
def maddrc256_shuffle_ssse3 (region1 region2 : List Nat) (constant : Nat) : List Nat :=
  if constant = 0 then region1
  else if constant = 1 then xorr_sse2 region1 region2
  else maddLoop (region1.length / 16) constant region1 region2

/-! ## `SocketHelper.hpp`: `UDPMultiForwarder` -/

/-- One `SocketHelper::UDPForwarder` as registered in a `UDPMultiForwarder`:
its client address and UDP port. -/
structure UDPForwarder where
  client_addr : String
  client_udp_port : Int
deriving DecidableEq

/-- `UDPMultiForwarder::removeForwarder` (`SocketHelper.hpp`, lines 198–206):
`udpForwarders.erase(std::find_if(...))`.  When a forwarder with the given
address and port exists, the first such entry is erased.  When none exists,
`std::find_if` returns `udpForwarders.end()` and the code calls
`std::list::erase(end())`, whose argument is not dereferenceable — undefined
behaviour in C++ (with libstdc++ it unlinks the sentinel node).  The undefined
call is modelled as `none`; the defined path returns `some` of the new list. -/
def removeForwarder (udpForwarders : List UDPForwarder) (client_addr : String)
    (client_udp_port : Int) : Option (List UDPForwarder) :=
  match udpForwarders.findIdx? (fun f =>
      f.client_addr = client_addr ∧ f.client_udp_port = client_udp_port) with
  | some i => some (udpForwarders.eraseIdx i)
  | none => none

/-! ## C4: the nonce handed to the cipher, stated against the spec's words

The spec describes the cipher as "ChaCha20-Poly1305 with a 12-byte nonce
derived by left-padding the 8-byte packet nonce with zeros".  The definitions
below follow those words: the same AEAD construction, but with every ChaCha20
block computed by the IETF (12-byte-nonce) block function applied to the
padded nonce. -/

/-- The spec's 12-byte nonce: the 8-byte packet nonce left-padded with four
zero bytes. -/
def nonce12_of_spec (nonce8 : List Nat) : List Nat := List.replicate 4 0 ++ nonce8

/-- The AEAD encryption as the spec words it: identical construction, with the
ChaCha20 blocks taken from the IETF block function at the padded nonce. -/
def aead_encrypt_spec_padded (key nonce8 ad m : List Nat) : List Nat :=
  let polyKey := (chacha20_block_ietf key 0 (nonce12_of_spec nonce8)).take 32
  let c := List.zipWith (· ^^^ ·) m
    (chacha20_keystream_ietf key (nonce12_of_spec nonce8) 1 m.length)
  c ++ poly1305_mac polyKey (aeadMacData ad c)

/-- The AEAD decryption as the spec words it. -/
def aead_decrypt_spec_padded (key nonce8 ad c : List Nat) : Option (List Nat) :=
  if c.length < 16 then none
  else
    let ct := c.take (c.length - 16)
    let tag := c.drop (c.length - 16)
    let polyKey := (chacha20_block_ietf key 0 (nonce12_of_spec nonce8)).take 32
    if poly1305_mac polyKey (aeadMacData ad ct) = tag then
      some (List.zipWith (· ^^^ ·) ct
        (chacha20_keystream_ietf key (nonce12_of_spec nonce8) 1 ct.length))
    else none

/-- `makeEncryptedPacketIncludingHeader` with the spec's padded-nonce cipher. -/
def makeEncryptedPacketIncludingHeader_spec_padded (session_key : List Nat)
    (wblockHdr : WBDataHeader) (payload : List Nat) : List Nat :=
  wblockHdr.asBytes ++
    aead_encrypt_spec_padded session_key wblockHdr.nonceBytes
      wblockHdr.asBytes payload

/-- `decryptPacket` with the spec's padded-nonce cipher. -/
def decryptPacket_spec_padded (session_key : List Nat) (wblockHdr : WBDataHeader)
    (encryptedPayload : List Nat) : DecryptResult :=
  if encryptedPayload.length < 16 then DecryptResult.throwsLengthError
  else
    match aead_decrypt_spec_padded session_key wblockHdr.nonceBytes
        wblockHdr.asBytes encryptedPayload with
    | none => DecryptResult.authFailure
    | some pt => DecryptResult.ok pt

/-- Whether a transmitter output event is a session-key packet. -/
def isSessionKeyEvt : TxEvent → Bool
  | TxEvent.sessionKeyPkt _ => true
  | TxEvent.dataFragment _ => false

/-! ## Length lemmas -/

theorem natToLeBytes_length : ∀ (n w : Nat), (natToLeBytes n w).length = w
  | _, 0 => rfl
  | n, w + 1 => by simp [natToLeBytes, natToLeBytes_length (n / 256) w]

theorem qround_length (s : List Nat) (ia ib ic i4 : Nat) :
    (qround s ia ib ic i4).length = s.length := by
  simp [qround]

theorem doubleRound_length (s : List Nat) : (doubleRound s).length = s.length := by
  simp [doubleRound, qround_length]

theorem iterDoubleRound_length : ∀ (n : Nat) (s : List Nat),
    (iterDoubleRound n s).length = s.length
  | 0, _ => rfl
  | n + 1, s => by
    rw [iterDoubleRound, iterDoubleRound_length n, doubleRound_length]

theorem bytesToWordsLE_length : ∀ l : List Nat,
    (bytesToWordsLE l).length = l.length / 4
  | [] => by simp [bytesToWordsLE]
  | [_] => by simp [bytesToWordsLE]
  | [_, _] => by simp [bytesToWordsLE]
  | [_, _, _] => by simp [bytesToWordsLE]
  | _ :: _ :: _ :: _ :: rest => by
    simp only [bytesToWordsLE, List.length_cons, bytesToWordsLE_length rest]
    omega

theorem wordsToBytesLE_length : ∀ ws : List Nat,
    (wordsToBytesLE ws).length = 4 * ws.length
  | [] => rfl
  | w :: rest => by
    simp only [wordsToBytesLE, List.map_cons, List.flatten_cons, List.length_append,
      natToLeBytes_length]
    have := wordsToBytesLE_length rest
    simp only [wordsToBytesLE] at this
    simp only [this, List.length_cons]
    omega

theorem chacha20_init_length (key n8 : List Nat) (ctr : Nat)
    (hk : key.length = 32) (hn : n8.length = 8) :
    (chacha20_init key ctr n8).length = 16 := by
  simp [chacha20_init, chachaConsts, bytesToWordsLE_length, hk, hn]

theorem chacha20_core_length (s : List Nat) : (chacha20_core s).length = s.length := by
  simp [chacha20_core, List.length_zipWith, iterDoubleRound_length]

theorem chacha20_block_length (key n8 : List Nat) (ctr : Nat)
    (hk : key.length = 32) (hn : n8.length = 8) :
    (chacha20_block key ctr n8).length = 64 := by
  rw [chacha20_block, wordsToBytesLE_length, chacha20_core_length,
    chacha20_init_length key n8 ctr hk hn]

theorem keystreamWith_length (blk : Nat → List Nat) (ctr0 len : Nat)
    (hblk : ∀ c, (blk c).length = 64) :
    (keystreamWith blk ctr0 len).length = len := by
  have hsum : (List.map List.length
      ((List.range ((len + 63) / 64)).map fun i => blk (ctr0 + i))).sum
      = 64 * ((len + 63) / 64) := by
    rw [List.map_map]
    have hfn : (List.length ∘ fun i => blk (ctr0 + i)) = Function.const Nat 64 :=
      funext fun i => hblk (ctr0 + i)
    rw [hfn, List.map_const, List.sum_replicate, List.length_range, smul_eq_mul]
    exact Nat.mul_comm _ _
  rw [keystreamWith, List.length_take, List.length_flatten, hsum]
  omega

theorem chacha20_keystream_length (key n8 : List Nat) (ctr0 len : Nat)
    (hk : key.length = 32) (hn : n8.length = 8) :
    (chacha20_keystream key n8 ctr0 len).length = len :=
  keystreamWith_length _ _ _ fun c => chacha20_block_length key n8 c hk hn

theorem poly1305_mac_length (key msg : List Nat) :
    (poly1305_mac key msg).length = 16 := by
  simp [poly1305_mac, natToLeBytes_length]

theorem aead_encrypt_length (key n8 ad m : List Nat)
    (hk : key.length = 32) (hn : n8.length = 8) :
    (crypto_aead_chacha20poly1305_encrypt key n8 ad m).length = m.length + 16 := by
  simp [crypto_aead_chacha20poly1305_encrypt, List.length_zipWith,
    chacha20_keystream_length key n8 1 m.length hk hn, poly1305_mac_length]

/-! ## The AEAD round trip -/

theorem zipWith_xor_cancel : ∀ (m ks : List Nat), m.length ≤ ks.length →
    List.zipWith (· ^^^ ·) (List.zipWith (· ^^^ ·) m ks) ks = m
  | [], _, _ => by simp
  | _ :: _, [], h => by simp at h
  | a :: m, k :: ks, h => by
    simp only [List.zipWith_cons_cons, Nat.xor_cancel_right, List.cons.injEq, true_and]
    exact zipWith_xor_cancel m ks (by simpa using h)

/-- The core round-trip property of the modelled libsodium AEAD. -/
theorem aead_roundtrip (key n8 ad m : List Nat)
    (hk : key.length = 32) (hn : n8.length = 8) :
    crypto_aead_chacha20poly1305_decrypt key n8 ad
      (crypto_aead_chacha20poly1305_encrypt key n8 ad m) = some m := by
  have hks : (chacha20_keystream key n8 1 m.length).length = m.length :=
    chacha20_keystream_length key n8 1 m.length hk hn
  set ks := chacha20_keystream key n8 1 m.length with hksdef
  set c := List.zipWith (· ^^^ ·) m ks with hc
  have hclen : c.length = m.length := by
    rw [hc, List.length_zipWith, hks]
    omega
  set tag := poly1305_mac ((chacha20_block key 0 n8).take 32) (aeadMacData ad c)
    with htagdef
  have htaglen : tag.length = 16 := poly1305_mac_length _ _
  have henc : crypto_aead_chacha20poly1305_encrypt key n8 ad m = c ++ tag := by
    rw [crypto_aead_chacha20poly1305_encrypt]
  rw [henc, crypto_aead_chacha20poly1305_decrypt]
  have hlen : (c ++ tag).length = c.length + 16 := by
    rw [List.length_append, htaglen]
  rw [if_neg (by omega)]
  have hsub : (c ++ tag).length - 16 = c.length := by omega
  have htake : (c ++ tag).take ((c ++ tag).length - 16) = c := by
    rw [hsub, List.take_left]
  have hdrop : (c ++ tag).drop ((c ++ tag).length - 16) = tag := by
    rw [hsub, List.drop_left]
  simp only [htake, hdrop, htagdef, if_pos rfl]
  rw [hclen, ← hksdef, hc]
  exact congrArg some (zipWith_xor_cancel m ks (by omega))

theorem WBDataHeader_asBytes_length (hdr : WBDataHeader) : hdr.asBytes.length = 11 := by
  simp [WBDataHeader.asBytes, natToLeBytes_length]

theorem WBDataHeader_nonceBytes_length (hdr : WBDataHeader) : hdr.nonceBytes.length = 8 := by
  simp [WBDataHeader.nonceBytes, natToLeBytes_length]

/-- C1.  AEAD round-trip: for every data header, every payload and a session
key of the proper 32-byte size, decrypting the ciphertext-plus-tag portion
(everything after the 11 header bytes) of
`makeEncryptedPacketIncludingHeader(H, P)` with `decryptPacket(H, ·)` under the
same session key succeeds and yields the original payload. -/
theorem aead_packet_roundtrip (session_key : List Nat) (hdr : WBDataHeader)
    (payload : List Nat) (hk : session_key.length = 32) :
    decryptPacket session_key hdr
      ((makeEncryptedPacketIncludingHeader session_key hdr payload).drop 11)
      = DecryptResult.ok payload := by
  have hh : hdr.asBytes.length = 11 := WBDataHeader_asBytes_length hdr
  have hn : hdr.nonceBytes.length = 8 := WBDataHeader_nonceBytes_length hdr
  have hdrop : (makeEncryptedPacketIncludingHeader session_key hdr payload).drop 11
      = crypto_aead_chacha20poly1305_encrypt session_key hdr.nonceBytes
          hdr.asBytes payload := by
    rw [makeEncryptedPacketIncludingHeader, ← hh, List.drop_left]
  have hel : (crypto_aead_chacha20poly1305_encrypt session_key hdr.nonceBytes
      hdr.asBytes payload).length = payload.length + 16 :=
    aead_encrypt_length _ _ _ _ hk hn
  rw [hdrop, decryptPacket, if_neg (by omega),
    aead_roundtrip _ _ _ _ hk hn]

/-- Witness for C1 at a concrete session key, header and payload. -/
theorem aead_packet_roundtrip_witness :
    decryptPacket (List.replicate 32 7) (WBDataHeader.mk 3 5 9)
      ((makeEncryptedPacketIncludingHeader (List.replicate 32 7)
        (WBDataHeader.mk 3 5 9) [10, 20, 30]).drop 11)
      = DecryptResult.ok [10, 20, 30] :=
  aead_packet_roundtrip (List.replicate 32 7) (WBDataHeader.mk 3 5 9)
    [10, 20, 30] (by decide)

/-- C2.  Session-key idempotence of `Decryptor::onNewPacketWfbKey`: when the
sealed key opens to a key byte-wise equal to the installed one, the function
returns `false` and leaves the state unchanged; it returns `true` and installs
the key exactly when the opened key differs. -/
theorem onNewPacketWfbKey_session_idempotence (d : Decryptor) (k : List Nat) :
    (k = d.session_key → d.onNewPacketWfbKey (some k) = (false, d)) ∧
    (k ≠ d.session_key →
      d.onNewPacketWfbKey (some k) = (true, { d with session_key := k })) ∧
    ((d.onNewPacketWfbKey (some k)).1 = true ↔ k ≠ d.session_key) := by
  refine ⟨fun h => ?_, fun h => ?_, ?_⟩
  · simp [Decryptor.onNewPacketWfbKey, h]
  · simp [Decryptor.onNewPacketWfbKey, (Ne.symm h : d.session_key ≠ k)]
  · by_cases h : k = d.session_key
    · simp [Decryptor.onNewPacketWfbKey, h]
    · simp [Decryptor.onNewPacketWfbKey, (Ne.symm h : d.session_key ≠ k), h]

/-- Witness for C2: re-announcing the all-zero key installed by the fresh
decryptor neither reports a new session nor changes the state. -/
theorem onNewPacketWfbKey_session_idempotence_witness :
    (Decryptor.construct [] []).onNewPacketWfbKey (some (List.replicate 32 0))
      = (false, Decryptor.construct [] []) :=
  (onNewPacketWfbKey_session_idempotence (Decryptor.construct [] [])
    (List.replicate 32 0)).1 (by decide)

/-- C9.  A freshly constructed `Decryptor` has the all-zero 32-byte session
key; `decryptPacket` therefore authenticates against the all-zero key until a
session-key announcement is processed, and the first announcement that opens
to any key other than the all-zero one makes `onNewPacketWfbKey` report a new
session and install it. -/
theorem decryptor_initial_session_key_zero (rxsk txpk : List Nat) :
    (Decryptor.construct rxsk txpk).session_key = List.replicate 32 0 ∧
    (∀ (hdr : WBDataHeader) (enc : List Nat),
      decryptPacket (Decryptor.construct rxsk txpk).session_key hdr enc
        = decryptPacket (List.replicate 32 0) hdr enc) ∧
    (∀ k : List Nat, k ≠ List.replicate 32 0 →
      (Decryptor.construct rxsk txpk).onNewPacketWfbKey (some k)
        = (true, { Decryptor.construct rxsk txpk with session_key := k })) := by
  refine ⟨rfl, fun hdr enc => rfl, fun k hk => ?_⟩
  simp only [Decryptor.onNewPacketWfbKey]
  rw [if_pos (fun h => hk h.symm)]

/-- Witness for C9: the first announcement opening to the key `7,0,…,0`
(which differs from the all-zero key) is reported as a new session. -/
theorem decryptor_initial_session_key_zero_witness :
    (Decryptor.construct [] []).onNewPacketWfbKey (some (7 :: List.replicate 31 0))
      = (true, { Decryptor.construct [] [] with
          session_key := 7 :: List.replicate 31 0 }) :=
  (decryptor_initial_session_key_zero [] []).2.2 (7 :: List.replicate 31 0) (by decide)

/-- C3, counterexample to the claim as stated.  A candidate ciphertext shorter
than the 16-byte tag never authenticates (the modelled libsodium decrypt
returns `none` for it, just as `crypto_aead_chacha20poly1305_decrypt` rejects
`clen < ABYTES`), yet `decryptPacket` does not return the empty optional on
it: the `size_t` subtraction `encryptedPayloadSize - ABYTES` wraps around and
`decrypted.resize(...)` throws `std::length_error`. -/
theorem decryptPacket_short_input_throws :
    crypto_aead_chacha20poly1305_decrypt (List.replicate 32 0)
        (WBDataHeader.mk 0 0 0).nonceBytes (WBDataHeader.mk 0 0 0).asBytes [] = none ∧
    decryptPacket (List.replicate 32 0) (WBDataHeader.mk 0 0 0) []
      = DecryptResult.throwsLengthError ∧
    decryptPacket (List.replicate 32 0) (WBDataHeader.mk 0 0 0) []
      ≠ DecryptResult.authFailure :=
  ⟨rfl, rfl, by decide⟩

/-- C3, amended.  For candidate ciphertexts at least as long as the 16-byte
tag, `decryptPacket` returns the empty optional (`AuthFailure`) whenever the
Poly1305 tag over the ciphertext (with the header as associated data) does not
match the trailing 16 bytes, and it returns a payload only when the tag
matches; for candidates shorter than 16 bytes the size subtraction underflows
and the resize throws `std::length_error` instead. -/
theorem decryptPacket_auth_failure (session_key : List Nat) (hdr : WBDataHeader)
    (enc : List Nat) :
    (16 ≤ enc.length →
      poly1305_mac ((chacha20_block session_key 0 hdr.nonceBytes).take 32)
          (aeadMacData hdr.asBytes (enc.take (enc.length - 16)))
        ≠ enc.drop (enc.length - 16) →
      decryptPacket session_key hdr enc = DecryptResult.authFailure) ∧
    (enc.length < 16 →
      decryptPacket session_key hdr enc = DecryptResult.throwsLengthError) ∧
    (∀ pt : List Nat, decryptPacket session_key hdr enc = DecryptResult.ok pt →
      poly1305_mac ((chacha20_block session_key 0 hdr.nonceBytes).take 32)
          (aeadMacData hdr.asBytes (enc.take (enc.length - 16)))
        = enc.drop (enc.length - 16)) := by
  by_cases hlen : enc.length < 16
  · refine ⟨fun h16 _ => absurd hlen (by omega), fun _ => ?_, fun pt hpt => ?_⟩
    · rw [decryptPacket, if_pos hlen]
    · rw [decryptPacket, if_pos hlen] at hpt
      exact absurd hpt (by simp)
  · by_cases htag : poly1305_mac ((chacha20_block session_key 0 hdr.nonceBytes).take 32)
        (aeadMacData hdr.asBytes (enc.take (enc.length - 16)))
        = enc.drop (enc.length - 16)
    · refine ⟨fun _ hne => absurd htag hne, fun h => absurd h hlen, fun pt _ => htag⟩
    · refine ⟨fun _ _ => ?_, fun h => absurd h hlen, fun pt hpt => ?_⟩
      · rw [decryptPacket, if_neg hlen, crypto_aead_chacha20poly1305_decrypt,
          if_neg hlen]
        simp only [if_neg htag]
      · rw [decryptPacket, if_neg hlen, crypto_aead_chacha20poly1305_decrypt,
          if_neg hlen] at hpt
        simp only [if_neg htag] at hpt
        exact absurd hpt (by simp)

/-- Witness for C3 (amended) at a concrete input: a 3-byte candidate is below
the 16-byte tag size and makes `decryptPacket` throw. -/
theorem decryptPacket_auth_failure_witness :
    decryptPacket (List.replicate 32 0) (WBDataHeader.mk 1 2 3) [1, 2, 3]
      = DecryptResult.throwsLengthError :=
  (decryptPacket_auth_failure (List.replicate 32 0) (WBDataHeader.mk 1 2 3)
    [1, 2, 3]).2.1 (by decide)

theorem chacha20_init_pad (key nonce8 : List Nat) (ctr : Nat)
    (hc : ctr < 4294967296) :
    chacha20_init key ctr nonce8 = chacha20_init_ietf key ctr (nonce12_of_spec nonce8) := by
  have h1 : ctr % 4294967296 = ctr := Nat.mod_eq_of_lt hc
  have h2 : ctr / 4294967296 = 0 := Nat.div_eq_of_lt hc
  have h3 : nonce12_of_spec nonce8 = 0 :: 0 :: 0 :: 0 :: nonce8 := rfl
  have h4 : bytesToWordsLE (0 :: 0 :: 0 :: 0 :: nonce8) = 0 :: bytesToWordsLE nonce8 := rfl
  rw [chacha20_init, chacha20_init_ietf, h3, h1, h2, h4]
  simp

theorem chacha20_block_pad (key nonce8 : List Nat) (ctr : Nat)
    (hc : ctr < 4294967296) :
    chacha20_block key ctr nonce8
      = chacha20_block_ietf key ctr (nonce12_of_spec nonce8) := by
  rw [chacha20_block, chacha20_block_ietf, chacha20_init_pad key nonce8 ctr hc]

theorem chacha20_keystream_pad (key nonce8 : List Nat) (ctr0 len : Nat)
    (hc : ctr0 + (len + 63) / 64 ≤ 4294967296) :
    chacha20_keystream key nonce8 ctr0 len
      = chacha20_keystream_ietf key (nonce12_of_spec nonce8) ctr0 len := by
  rw [chacha20_keystream, chacha20_keystream_ietf, keystreamWith, keystreamWith]
  have hmap : (List.range ((len + 63) / 64)).map
        (fun i => chacha20_block key (ctr0 + i) nonce8)
      = (List.range ((len + 63) / 64)).map
        (fun i => chacha20_block_ietf key (ctr0 + i) (nonce12_of_spec nonce8)) :=
    List.map_congr_left fun i hi => chacha20_block_pad key nonce8 (ctr0 + i)
      (by have := List.mem_range.mp hi; omega)
  rw [hmap]

theorem aead_encrypt_pad (key nonce8 ad m : List Nat)
    (hm : m.length ≤ 137438953472) :
    crypto_aead_chacha20poly1305_encrypt key nonce8 ad m
      = aead_encrypt_spec_padded key nonce8 ad m := by
  rw [crypto_aead_chacha20poly1305_encrypt, aead_encrypt_spec_padded,
    chacha20_block_pad key nonce8 0 (by omega),
    chacha20_keystream_pad key nonce8 1 m.length (by omega)]

theorem aead_decrypt_pad (key nonce8 ad c : List Nat)
    (hc : c.length ≤ 137438953472) :
    crypto_aead_chacha20poly1305_decrypt key nonce8 ad c
      = aead_decrypt_spec_padded key nonce8 ad c := by
  simp only [crypto_aead_chacha20poly1305_decrypt, aead_decrypt_spec_padded]
  rw [chacha20_block_pad key nonce8 0 (by omega),
    chacha20_keystream_pad key nonce8 1 (List.take (c.length - 16) c).length
      (by simp only [List.length_take]; omega)]

/-- C4.  The nonce the cipher actually runs with.  The code calls the original
`crypto_aead_chacha20poly1305` with the 8-byte header nonce; for every block
counter below `2^32` (always the case: counters stay below
`payload/64 + 2`) this equals the IETF ChaCha20 block on the 12-byte nonce
obtained by left-padding the 8-byte packet nonce with four zero bytes — so
both `makeEncryptedPacketIncludingHeader` and `decryptPacket` coincide with
the variants written with the spec's padded 12-byte nonce. -/
theorem aead_nonce_left_padded (session_key : List Nat) (hdr : WBDataHeader) :
    (∀ (nonce8 : List Nat) (ctr : Nat), ctr < 4294967296 →
      chacha20_block session_key ctr nonce8
        = chacha20_block_ietf session_key ctr (nonce12_of_spec nonce8)) ∧
    (∀ payload : List Nat, payload.length ≤ 137438953472 →
      makeEncryptedPacketIncludingHeader session_key hdr payload
        = makeEncryptedPacketIncludingHeader_spec_padded session_key hdr payload) ∧
    (∀ enc : List Nat, enc.length ≤ 137438953472 →
      decryptPacket session_key hdr enc
        = decryptPacket_spec_padded session_key hdr enc) := by
  refine ⟨fun nonce8 ctr hc => chacha20_block_pad session_key nonce8 ctr hc,
    fun payload hp => ?_, fun enc he => ?_⟩
  · rw [makeEncryptedPacketIncludingHeader,
      makeEncryptedPacketIncludingHeader_spec_padded,
      aead_encrypt_pad session_key hdr.nonceBytes hdr.asBytes payload hp]
  · rw [decryptPacket, decryptPacket_spec_padded,
      aead_decrypt_pad session_key hdr.nonceBytes hdr.asBytes enc he]

/-- Witness for C4 at a concrete key, nonce and counter. -/
theorem aead_nonce_left_padded_witness :
    chacha20_block (List.replicate 32 1) 1 [1, 2, 3, 4, 5, 6, 7, 8]
      = chacha20_block_ietf (List.replicate 32 1) 1
          (nonce12_of_spec [1, 2, 3, 4, 5, 6, 7, 8]) :=
  (aead_nonce_left_padded (List.replicate 32 1) (WBDataHeader.mk 0 0 0)).1
    [1, 2, 3, 4, 5, 6, 7, 8] 1 (by decide)

/-- C5, counterexample to the claim as stated.  With `encrypted = 1` and
`multiplex_index = 0` the packed byte is `1` (the flag sits in bit 0 under the
target ABI's LSB-first bit-field allocation), not `(1 << 7) | 0 = 128` as the
claim's formula demands. -/
theorem radio_port_encrypted_not_bit7 :
    radio_port_to_uint8_t { encrypted := 1, multiplex_index := 0 } = 1 ∧
    radio_port_to_uint8_t { encrypted := 1, multiplex_index := 0 }
      ≠ (1 <<< 7) ||| 0 := by
  exact ⟨rfl, by decide⟩

/-- C5, amended.  For flags `e ≤ 1` and stream indices `s ≤ 127`,
`radio_port_to_uint8_t` packs `e` into bit 0 and `s` into bits 1–7: the byte
is `e | (s << 1)`, so its parity recovers `e` and its upper seven bits
recover `s`. -/
theorem radio_port_encoding (rp : RadioPort) (he : rp.encrypted ≤ 1)
    (hs : rp.multiplex_index ≤ 127) :
    radio_port_to_uint8_t rp = rp.encrypted ||| (rp.multiplex_index <<< 1) ∧
    radio_port_to_uint8_t rp % 2 = rp.encrypted ∧
    radio_port_to_uint8_t rp / 2 = rp.multiplex_index := by
  obtain ⟨e, s⟩ := rp
  have key : ∀ e, e ≤ 1 → ∀ s, s ≤ 127 →
      ((e % 2) ||| ((s % 128) <<< 1)) = e ||| (s <<< 1) ∧
      ((e % 2) ||| ((s % 128) <<< 1)) % 2 = e ∧
      ((e % 2) ||| ((s % 128) <<< 1)) / 2 = s := by decide
  exact key e he s hs

/-- Witness for C5 (amended) at `e = 1`, `s = 5`: the byte is `1 | (5 << 1) = 11`. -/
theorem radio_port_encoding_witness :
    radio_port_to_uint8_t { encrypted := 1, multiplex_index := 5 }
      = 1 ||| (5 <<< 1) :=
  (radio_port_encoding { encrypted := 1, multiplex_index := 5 }
    (by decide) (by decide)).1

/-! ## C6 and C7: the transmitter schedule -/

theorem sendFragments_spec : ∀ (frags : List Nat) (st : TxState),
    (sendFragments st frags).2.countP isSessionKeyEvt = 0 ∧
    (sendFragments st frags).1.session_key_announce_ts = st.session_key_announce_ts ∧
    (sendFragments st frags).1.sessionKeyVersion = st.sessionKeyVersion
  | [], st => by simp [sendFragments]
  | sz :: rest, st => by
    have ih := sendFragments_spec rest
      ({ sendPacket st sz with m_curr_seq_nr := st.m_curr_seq_nr + 1 })
    simp only [sendFragments, sendFecPrimaryOrSecondaryFragment, List.countP_cons,
      isSessionKeyEvt]
    refine ⟨?_, ih.2.1, ih.2.2⟩
    simp [ih.1, isSessionKeyEvt]

theorem sendFragments_countP (frags : List Nat) (st : TxState) :
    (sendFragments st frags).2.countP isSessionKeyEvt = 0 :=
  (sendFragments_spec frags st).1

theorem sendFragments_ts (frags : List Nat) (st : TxState) :
    (sendFragments st frags).1.session_key_announce_ts = st.session_key_announce_ts :=
  (sendFragments_spec frags st).2.1

theorem sendFragments_ver (frags : List Nat) (st : TxState) :
    (sendFragments st frags).1.sessionKeyVersion = st.sessionKeyVersion :=
  (sendFragments_spec frags st).2.2

/-- C6.  The session-key announcement schedule.  At construction exactly five
session-key packets go out, at 10 ms spacing, and the next periodic
announcement is armed at `now + SESSION_KEY_ANNOUNCE_DELTA`.  Thereafter a
session-key packet is emitted only from inside `feedPacket`: on a validly
sized packet, a periodic announcement is sent exactly when `now` has reached
the stored announce timestamp (which is then advanced to
`now + SESSION_KEY_ANNOUNCE_DELTA` and is otherwise untouched), plus one
rekey announcement exactly when the FEC encoder reports nonce overflow. -/
theorem session_key_announcement_schedule :
    (∀ t0 : Nat,
      (WBTransmitter_construct t0).2.map Prod.fst
          = [t0, t0 + 10, t0 + 20, t0 + 30, t0 + 40] ∧
      (WBTransmitter_construct t0).2.map Prod.snd
          = List.replicate 5 (TxEvent.sessionKeyPkt 1) ∧
      (WBTransmitter_construct t0).1.session_key_announce_ts
          = t0 + 50 + SESSION_KEY_ANNOUNCE_DELTA) ∧
    (∀ (st : TxState) (now size : Nat) (frags : List Nat) (overflow : Bool),
      1 ≤ size → size ≤ FEC_MAX_PAYLOAD_SIZE →
      (feedPacket st now size frags overflow).2.countP isSessionKeyEvt
        = ((if st.session_key_announce_ts ≤ now then 1 else 0)
            + (if overflow then 1 else 0)) ∧
      (feedPacket st now size frags overflow).1.session_key_announce_ts
        = (if st.session_key_announce_ts ≤ now
            then now + SESSION_KEY_ANNOUNCE_DELTA
            else st.session_key_announce_ts)) := by
  constructor
  · intro t0
    refine ⟨?_, ?_, ?_⟩ <;>
      simp [WBTransmitter_construct, constructBurst, sendSessionKey, sendPacket,
        TxState.init, List.replicate]
  · intro st now size frags overflow h1 h2
    have hvalid : ¬(size = 0 ∨ FEC_MAX_PAYLOAD_SIZE < size) := by
      simp only [FEC_MAX_PAYLOAD_SIZE] at h2 ⊢
      omega
    simp only [feedPacket, if_neg hvalid]
    by_cases ha : st.session_key_announce_ts ≤ now <;>
      by_cases hov : overflow = true <;>
        simp [ha, hov, sendSessionKey, sendPacket,
          List.countP_append, List.countP_cons, isSessionKeyEvt,
          sendFragments_countP, sendFragments_ts, sendFragments_ver]

/-- Witness for C6 at a concrete state and time: feeding a 1-byte packet with
the announce timestamp due emits exactly one session-key packet and re-arms
the timestamp. -/
theorem session_key_announcement_schedule_witness :
    (feedPacket TxState.init 3 1 [] false).2.countP isSessionKeyEvt
        = ((if TxState.init.session_key_announce_ts ≤ 3 then 1 else 0)
            + (if false then 1 else 0)) ∧
    (feedPacket TxState.init 3 1 [] false).1.session_key_announce_ts
        = (if TxState.init.session_key_announce_ts ≤ 3
            then 3 + SESSION_KEY_ANNOUNCE_DELTA
            else TxState.init.session_key_announce_ts) :=
  session_key_announcement_schedule.2 TxState.init 3 1 [] false
    (by decide) (by decide)

/-- C7.  `feedPacket` rejects empty and oversized inputs atomically: with
`size = 0` or `size > FEC_MAX_PAYLOAD_SIZE` the function returns before
touching anything — no event is emitted and the state (all counters, the
announce timestamp, the sequence numbers) is exactly the old state. -/
theorem feedPacket_rejects_invalid_size (st : TxState) (now size : Nat)
    (frags : List Nat) (overflow : Bool)
    (hsize : size = 0 ∨ FEC_MAX_PAYLOAD_SIZE < size) :
    feedPacket st now size frags overflow = (st, []) := by
  rw [feedPacket, if_pos hsize]

/-- Witness for C7 at a concrete oversized input (2000 > 1457). -/
theorem feedPacket_rejects_invalid_size_witness :
    feedPacket TxState.init 17 2000 [100, 100] true = (TxState.init, []) :=
  feedPacket_rejects_invalid_size TxState.init 17 2000 [100, 100] true (by decide)

/-! ## C8: GF(256) region multiply-add -/

theorem mul2_xor (a b : Nat) : 2 * (a ^^^ b) = 2 * a ^^^ 2 * b := by
  have h2 : ∀ x : Nat, 2 * x = x <<< 1 := fun x => by
    rw [Nat.shiftLeft_eq, pow_one, Nat.mul_comm]
  apply Nat.eq_of_testBit_eq
  intro i
  rw [h2, h2, h2, Nat.testBit_shiftLeft, Nat.testBit_xor, Nat.testBit_xor,
    Nat.testBit_shiftLeft, Nat.testBit_shiftLeft]
  by_cases hi : 1 ≤ i <;> simp [hi]

theorem lt128_testBit (x : Nat) (hx : x < 256) : x < 128 ↔ x.testBit 7 = false := by
  have h7 : (2 : Nat) ^ 7 = 128 := by norm_num
  constructor
  · intro h
    exact Nat.testBit_lt_two_pow (by omega)
  · intro h
    rw [Nat.testBit_to_div_mod, h7, decide_eq_false_iff_not] at h
    omega

theorem xtime_lt : ∀ b, b < 256 → xtime b < 256 := by decide

theorem xor_mix (x y z w : Nat) : (x ^^^ y) ^^^ (z ^^^ w) = (x ^^^ z) ^^^ (y ^^^ w) := by
  rw [Nat.xor_assoc, Nat.xor_assoc]
  congr 1
  rw [← Nat.xor_assoc, ← Nat.xor_assoc]
  congr 1
  exact Nat.xor_comm y z

theorem xtime_xor (a b : Nat) (ha : a < 256) (hb : b < 256) :
    xtime (a ^^^ b) = xtime a ^^^ xtime b := by
  have h7 : (2 : Nat) ^ 7 = 128 := by norm_num
  have h8 : (2 : Nat) ^ 8 = 256 := by norm_num
  have hxor256 : a ^^^ b < 256 := by
    rw [← h8]
    exact Nat.xor_lt_two_pow (by omega) (by omega)
  by_cases hA : a < 128 <;> by_cases hB : b < 128
  · have hab : a ^^^ b < 128 := by
      rw [← h7]
      exact Nat.xor_lt_two_pow (by omega) (by omega)
    rw [xtime, xtime, xtime, if_pos hA, if_pos hB, if_pos hab]
    exact mul2_xor a b
  · have hbitA : a.testBit 7 = false := ((lt128_testBit a ha).mp hA)
    have hbitB : b.testBit 7 = true := by
      rcases Bool.eq_false_or_eq_true (b.testBit 7) with h | h
      · exact h
      · exact absurd ((lt128_testBit b hb).mpr h) hB
    have hab : ¬(a ^^^ b < 128) := by
      rw [lt128_testBit _ hxor256, Nat.testBit_xor, hbitA, hbitB]
      simp
    rw [xtime, xtime, xtime, if_pos hA, if_neg hB, if_neg hab, mul2_xor,
      Nat.xor_assoc]
  · have hbitA : a.testBit 7 = true := by
      rcases Bool.eq_false_or_eq_true (a.testBit 7) with h | h
      · exact h
      · exact absurd ((lt128_testBit a ha).mpr h) hA
    have hbitB : b.testBit 7 = false := ((lt128_testBit b hb).mp hB)
    have hab : ¬(a ^^^ b < 128) := by
      rw [lt128_testBit _ hxor256, Nat.testBit_xor, hbitA, hbitB]
      simp
    rw [xtime, xtime, xtime, if_neg hA, if_pos hB, if_neg hab, mul2_xor]
    rw [Nat.xor_assoc, Nat.xor_assoc, Nat.xor_comm 285 (2 * b)]
  · have hbitA : a.testBit 7 = true := by
      rcases Bool.eq_false_or_eq_true (a.testBit 7) with h | h
      · exact h
      · exact absurd ((lt128_testBit a ha).mpr h) hA
    have hbitB : b.testBit 7 = true := by
      rcases Bool.eq_false_or_eq_true (b.testBit 7) with h | h
      · exact h
      · exact absurd ((lt128_testBit b hb).mpr h) hB
    have hab : a ^^^ b < 128 := by
      rw [lt128_testBit _ hxor256, Nat.testBit_xor, hbitA, hbitB]
      simp
    rw [xtime, xtime, xtime, if_neg hA, if_neg hB, if_pos hab, mul2_xor,
      xor_mix, Nat.xor_self, Nat.xor_zero]

theorem gfmulGo_zero_c : ∀ n b, gfmulGo n 0 b = 0
  | 0, _ => rfl
  | n + 1, b => by
    simp [gfmulGo, gfmulGo_zero_c n]

theorem gfmul_zero_c (b : Nat) : gfmul 0 b = 0 := gfmulGo_zero_c 8 b

theorem gfmulGo_one_c (n b : Nat) : gfmulGo (n + 1) 1 b = b := by
  rw [gfmulGo, if_pos rfl]
  have h12 : (1 : Nat) / 2 = 0 := rfl
  rw [h12, gfmulGo_zero_c, Nat.xor_zero]

theorem gfmul_one_c (b : Nat) : gfmul 1 b = b := gfmulGo_one_c 7 b

theorem gfmulGo_xor : ∀ (n c a b : Nat), a < 256 → b < 256 →
    gfmulGo n c (a ^^^ b) = gfmulGo n c a ^^^ gfmulGo n c b
  | 0, _, _, _, _, _ => by simp [gfmulGo]
  | n + 1, c, a, b, ha, hb => by
    simp only [gfmulGo]
    rw [xtime_xor a b ha hb,
      gfmulGo_xor n (c / 2) (xtime a) (xtime b) (xtime_lt a ha) (xtime_lt b hb)]
    by_cases hc : c % 2 = 1
    · have e1 : (if c % 2 = 1 then a ^^^ b else 0) = a ^^^ b := if_pos hc
      have e2 : (if c % 2 = 1 then a else 0) = a := if_pos hc
      have e3 : (if c % 2 = 1 then b else 0) = b := if_pos hc
      rw [e1, e2, e3]
      exact xor_mix a b _ _
    · have e1 : (if c % 2 = 1 then a ^^^ b else 0) = 0 := if_neg hc
      have e2 : (if c % 2 = 1 then a else 0) = 0 := if_neg hc
      have e3 : (if c % 2 = 1 then b else 0) = 0 := if_neg hc
      rw [e1, e2, e3]
      simp

theorem nibble_split : ∀ s, s < 256 → (16 * (s / 16)) ^^^ (s % 16) = s := by decide

theorem gf_table_split (c s : Nat) (hs : s < 256) :
    th c (s / 16) ^^^ tl c (s % 16) = gfmul c s := by
  have h1 : s / 16 % 16 = s / 16 := Nat.mod_eq_of_lt (by omega)
  have h2 : s % 16 % 16 = s % 16 := Nat.mod_eq_of_lt (Nat.mod_lt s (by omega))
  rw [th, tl, h1, h2, gfmul, gfmul, gfmul,
    ← gfmulGo_xor 8 c (16 * (s / 16)) (s % 16) (by omega) (by omega),
    nibble_split s hs]

theorem maddLoop_zipWith : ∀ (k c : Nat) (dst src : List Nat),
    dst.length = 16 * k → src.length = dst.length →
    maddLoop k c dst src
      = List.zipWith (fun d s => (th c (s / 16 % 16) ^^^ tl c (s % 16)) ^^^ d) dst src
  | 0, c, dst, src, hd, hs => by
    have hnil : dst = [] := List.eq_nil_of_length_eq_zero (by omega)
    simp [maddLoop, hnil]
  | k + 1, c, dst, src, hd, hs => by
    have h16d : (dst.take 16).length = 16 := by
      simp only [List.length_take]
      omega
    have h16s : (src.take 16).length = 16 := by
      simp only [List.length_take]
      omega
    have ih := maddLoop_zipWith k c (dst.drop 16) (src.drop 16)
      (by simp only [List.length_drop]; omega)
      (by simp only [List.length_drop]; omega)
    rw [maddLoop, ih]
    conv_rhs => rw [← List.take_append_drop 16 dst, ← List.take_append_drop 16 src]
    rw [List.zipWith_append _ _ _ _ _ (by rw [h16d, h16s])]
    rfl

theorem zipWith_madd_to_gfmul : ∀ (c : Nat) (l1 l2 : List Nat),
    (∀ b ∈ l2, b < 256) →
    List.zipWith (fun d s => (th c (s / 16 % 16) ^^^ tl c (s % 16)) ^^^ d) l1 l2
      = List.zipWith (fun d s => d ^^^ gfmul c s) l1 l2
  | _, [], _, _ => by simp
  | _, _ :: _, [], _ => by simp
  | c, d :: l1, s :: l2, hb => by
    have hs : s < 256 := hb s (by simp)
    have hrest := zipWith_madd_to_gfmul c l1 l2 (fun b hbm => hb b (by simp [hbm]))
    simp only [List.zipWith_cons_cons, hrest, List.cons.injEq, and_true]
    have h1 : s / 16 % 16 = s / 16 := Nat.mod_eq_of_lt (by omega)
    rw [h1, gf_table_split c s hs, Nat.xor_comm]

theorem zipWith_xor_gfmul_zero : ∀ (l1 l2 : List Nat), l1.length ≤ l2.length →
    List.zipWith (fun d s => d ^^^ gfmul 0 s) l1 l2 = l1
  | [], _, _ => by simp
  | _ :: _, [], h => by simp at h
  | d :: l1, s :: l2, h => by
    rw [List.zipWith_cons_cons, gfmul_zero_c, Nat.xor_zero]
    exact congrArg (List.cons d) (zipWith_xor_gfmul_zero l1 l2 (by simpa using h))

/-- C8.  GF(256) region multiply-add: for every multiplier below 256, every
pair of byte regions of equal positive length `16·k` (the 16-byte SIMD chunk
granularity) whose source bytes are bytes, `maddrc256_shuffle_ssse3` replaces
each destination byte `d` with `d XOR (constant · s)`, the product taken in
GF(2^8) with the primitive polynomial `0x11d`; in particular `constant = 0`
leaves the region unchanged and `constant = 1` XORs the source in. -/
theorem maddrc256_shuffle_ssse3_gf_madd (region1 region2 : List Nat)
    (constant k : Nat) (hc : constant < 256) (hk : 1 ≤ k)
    (hlen : region1.length = 16 * k) (hlen2 : region2.length = region1.length)
    (hbytes : ∀ b ∈ region2, b < 256) :
    maddrc256_shuffle_ssse3 region1 region2 constant
      = List.zipWith (fun d s => d ^^^ gfmul constant s) region1 region2 := by
  by_cases h0 : constant = 0
  · subst h0
    rw [maddrc256_shuffle_ssse3, if_pos rfl,
      zipWith_xor_gfmul_zero region1 region2 (by omega)]
  · by_cases h1 : constant = 1
    · subst h1
      rw [maddrc256_shuffle_ssse3, if_neg h0, if_pos rfl, xorr_sse2]
      have hfn : (fun d s => d ^^^ gfmul 1 s) = fun d s : Nat => d ^^^ s :=
        funext fun d => funext fun s => by rw [gfmul_one_c]
      rw [hfn]
    · rw [maddrc256_shuffle_ssse3, if_neg h0, if_neg h1, hlen,
        Nat.mul_div_cancel_left k (by omega : 0 < 16),
        maddLoop_zipWith k constant region1 region2 hlen hlen2,
        zipWith_madd_to_gfmul constant region1 region2 hbytes]

/-- Witness for C8 at a concrete 16-byte region and multiplier 2. -/
theorem maddrc256_shuffle_ssse3_gf_madd_witness :
    maddrc256_shuffle_ssse3 (List.range 16) (List.range 16) 2
      = List.zipWith (fun d s => d ^^^ gfmul 2 s) (List.range 16) (List.range 16) :=
  maddrc256_shuffle_ssse3_gf_madd (List.range 16) (List.range 16) 2 1
    (by decide) (by decide) (by decide) (by decide) (by decide)

/-- C10.  `removeForwarder` evaluated where no registered forwarder matches:
`std::find_if` yields `end()` and the code calls `std::list::erase(end())`,
which is undefined behaviour (modelled as `none`) — not the no-op that the
function's own documentation ("Do nothing if such an instance is not found")
promises.  When a match exists, the erase is well defined and removes the
first matching entry. -/
theorem removeForwarder_absent_erases_end :
    removeForwarder [] "127.0.0.1" 5600 = none ∧
    removeForwarder [{ client_addr := "10.0.0.1", client_udp_port := 5601 }]
        "127.0.0.1" 5600 = none ∧
    removeForwarder [{ client_addr := "127.0.0.1", client_udp_port := 5600 }]
        "127.0.0.1" 5600 = some [] := by
  refine ⟨rfl, by decide, by decide⟩
